import Mathlib

/-!
Shallow embedding of the record store of the mare-website repository.

Rust sources embedded here: `src/database/breed.rs` (the `Breed` enumeration and
its integer conversions), `src/database/mod.rs` (`SetState`, `DatabaseRecord`,
and the `Database` operations `add`, `set`, `get_paged_records`),
`src/app/mod.rs` (the `post_mares` validation and the first/last match of
`get_paged_mare_table`) and `src/utils/ulid.rs` (`DbUlidGen::generate`).

Modelling conventions: ULID identifiers are stored as fixed-length Crockford
base32 text, so the SQL text ordering used by the queries coincides with the
numeric ordering of the underlying 128-bit ULID value; identifiers are
therefore modelled by that numeric value (a `Nat`). Timestamps are modelled as
`Nat`. The `mares` table is modelled as the list of its rows. Rust panics
(`unreachable!`) are modelled as `none`.
-/

/-- The `Breed` enumeration of `src/database/breed.rs`: `Earth = 0`,
`Pegasus = 1`, `Unicorn = 2`. -/
inductive Breed where
  | Earth
  | Pegasus
  | Unicorn
deriving DecidableEq, Repr

/-- The `From<Breed> for i32` conversion of `src/database/breed.rs`. -/
def Breed.toI32 : Breed → Int
  | .Earth => 0
  | .Pegasus => 1
  | .Unicorn => 2

/-- The `From<i32> for Breed` conversion of `src/database/breed.rs`; the
wildcard arm of the source `match` is `unreachable!` and is modelled as
`none`. -/
def Breed.fromI32? (v : Int) : Option Breed :=
  if v = 0 then some .Earth
  else if v = 1 then some .Pegasus
  else if v = 2 then some .Unicorn
  else none

/-- The `SetState` outcome of `Database::set` (`src/database/mod.rs`):
`Success = 0`, `ModifiedAtConflict = 1`, `RecordNotFound = 2`. -/
inductive SetState where
  | Success
  | ModifiedAtConflict
  | RecordNotFound
deriving DecidableEq, Repr

/-- The `From<i32> for SetState` conversion of `src/database/mod.rs`; the
wildcard arm of the source `match` is `unreachable!` and is modelled as
`none`. -/
def SetState.fromI32? (v : Int) : Option SetState :=
  if v = 0 then some .Success
  else if v = 1 then some .ModifiedAtConflict
  else if v = 2 then some .RecordNotFound
  else none

/-- A row of the `mares` table (`DatabaseRecord` in `src/database/mod.rs`). -/
structure DatabaseRecord where
  id : Nat
  name : String
  breed : Breed
  modified_at : Nat
deriving DecidableEq, Repr

/-- The `AddPonyForm` of `src/app/mod.rs`. -/
structure AddPonyForm where
  name : String
  breed : Breed
deriving DecidableEq, Repr

/-- The `EditPonyForm` of `src/app/mod.rs`: the new field values together with
the stale concurrency token `modified_at`. -/
structure EditPonyForm where
  name : String
  breed : Breed
  modified_at : Nat
deriving DecidableEq, Repr

/-- The `mares` table, as the list of its rows. -/
abbrev Db := List DatabaseRecord

/-- Row lookup by id: the `where id = $1` selection used by `Database::get`
(`src/database/mod.rs`). -/
def lookupMare (db : Db) (id : Nat) : Option DatabaseRecord :=
  db.find? (fun r => r.id == id)

/-- The `Database::add` insert (`src/database/mod.rs`): appends a row built
from the form fields; the id comes from the table default generator and the
timestamp from `CURRENT_TIMESTAMP`, both passed here as parameters. -/
def Database.add (db : Db) (freshId : Nat) (now : Nat) (data : AddPonyForm) :
    Db × DatabaseRecord :=
  let record : DatabaseRecord :=
    { id := freshId, name := data.name, breed := data.breed, modified_at := now }
  (db ++ [record], record)

/-- Outcome of the `post_mares` handler (`src/app/mod.rs`): either the
`BAD_REQUEST` rejection carrying the offending length, or the redirect issued
after a successful insert. -/
inductive PostMaresResult where
  | badRequest (len : Nat)
  | redirect
deriving DecidableEq, Repr

/-- The `post_mares` handler (`src/app/mod.rs`): rejects a name whose byte
length (Rust `String::len`, i.e. UTF-8 bytes) exceeds 100, otherwise inserts
via `Database::add` and redirects. -/
def post_mares (db : Db) (freshId : Nat) (now : Nat) (form : AddPonyForm) :
    Db × PostMaresResult :=
  if form.name.utf8ByteSize > 100 then
    (db, .badRequest form.name.utf8ByteSize)
  else
    ((Database.add db freshId now form).1, .redirect)

/-- The per-row effect of an accepted edit: the row with the targeted id gets
the new `name`, `breed` and write timestamp; every other row is unchanged. -/
def applyEdit (id : Nat) (name : String) (breed : Breed) (now : Nat)
    (s : DatabaseRecord) : DatabaseRecord :=
  if s.id = id then { s with name := name, breed := breed, modified_at := now }
  else s

/-- Modelled from the spec: the stored procedure `set_mare_record` invoked by
`Database::set` (`src/database/mod.rs`); its SQL migration is not under `src/`.
Per the spec it is a single atomic check-and-set: if a row with this id exists
and its `modified_at` equals `expected`, apply `name` and `breed` and set
`modified_at` to `now` (`Success`); if the row exists with a different
`modified_at`, change nothing (`ModifiedAtConflict`); if no row exists, change
nothing (`RecordNotFound`). -/
def set_mare_record (db : Db) (id : Nat) (name : String) (breed : Breed)
    (expected : Nat) (now : Nat) : Db × SetState :=
  match db.find? (fun r => r.id == id) with
  | none => (db, .RecordNotFound)
  | some r =>
    if r.modified_at = expected then
      (db.map (applyEdit id name breed now), .Success)
    else
      (db, .ModifiedAtConflict)

/-- `Database::set` (`src/database/mod.rs`): delegates to `set_mare_record`
with the form fields and the stale token, the write timestamp coming from the
engine clock. -/
def Database.set (db : Db) (id : Nat) (data : EditPonyForm) (now : Nat) :
    Db × SetState :=
  set_mare_record db id data.name data.breed data.modified_at now

/-- The `Database::get_paged_records` query (`src/database/mod.rs`):
`where id > $1 order by id asc limit 5` — the `Next` page of the cursor
protocol. -/
def Database.get_paged_records (db : Db) (offset : Nat) : List DatabaseRecord :=
  ((db.filter (fun r => decide (offset < r.id))).mergeSort
    (fun a b => decide (a.id ≤ b.id))).take 5

/-- Modelled from the spec: the `Previous` direction of paging. The handler in
`src/app/mod.rs` passes a `PagingState` direction to `get_paged_records`, but
the direction-aware revision of that function is not under `src/`. Per the
spec: up to 5 rows with id strictly below the cursor, selected scanning
backward from it, presented in ascending id order. -/
def get_paged_records_previous (db : Db) (offset : Nat) : List DatabaseRecord :=
  (((db.filter (fun r => decide (r.id < offset))).mergeSort
    (fun a b => decide (b.id ≤ a.id))).take 5).reverse

/-- The head-and-last match of `get_paged_mare_table` (`src/app/mod.rs`),
computing the navigation ids of the rendered page; the two mixed arms are the
source's `unreachable!` branch, modelled as `none`. -/
def firstLastIds (records : List DatabaseRecord) : Option (Option (Nat × Nat)) :=
  match records.head?, records.getLast? with
  | none, none => some none
  | some first, some last => some (some (first.id, last.id))
  | none, some _ => none
  | some _, none => none

/-- One observation of the environment by the ULID source: the current coarse
timestamp tick and a fresh random payload. -/
structure UlidTick where
  ts : Nat
  rand : Nat
deriving DecidableEq, Repr

/-- Modelled from the spec: the underlying monotonic ULID source (the external
`ulid` crate generator held by `DbUlidGen`). A ULID is modelled by its 128-bit
value, the timestamp being its high 48 bits (`value / 2 ^ 80`). Given the
previously issued ulid: on a strictly newer tick it emits the fresh
`(ts, rand)` ulid; within the same or an older tick it increments the previous
ulid, failing (the momentary exhaustion of the spec) exactly when the 80-bit
random component is saturated. -/
def ulidSourceGenerate (prev : Nat) (t : UlidTick) : Option Nat :=
  if prev / 2 ^ 80 < t.ts then some (t.ts * 2 ^ 80 + t.rand)
  else if prev % 2 ^ 80 = 2 ^ 80 - 1 then none
  else some (prev + 1)

/-- `DbUlidGen::generate` (`src/utils/ulid.rs`): under the generator mutex,
loop retrying the source on each new environment observation until it yields
`Ok`; the list is the stream of observations the retry loop consumes. -/
def DbUlidGen.generate (prev : Nat) : List UlidTick → Option Nat
  | [] => none
  | t :: env =>
    match ulidSourceGenerate prev t with
    | some u => some u
    | none => DbUlidGen.generate prev env

/-- Sequential calls to `DbUlidGen::generate`: each call threads the previously
issued ulid as the generator state and consumes its own observation stream. -/
def DbUlidGen.run (prev : Nat) : List (List UlidTick) → Option (List Nat)
  | [] => some []
  | env :: envs =>
    match DbUlidGen.generate prev env with
    | none => none
    | some u => Option.map (u :: ·) (DbUlidGen.run u envs)

/-- The edited row keeps its identifier. -/
theorem applyEdit_id (id : Nat) (name : String) (breed : Breed) (now : Nat)
    (s : DatabaseRecord) : (applyEdit id name breed now s).id = s.id := by
  unfold applyEdit
  split <;> rfl

/-- Applying an edit changes no identifier column. -/
theorem map_applyEdit_ids (db : Db) (id : Nat) (name : String) (breed : Breed)
    (now : Nat) :
    (db.map (applyEdit id name breed now)).map (·.id) = db.map (·.id) := by
  simp [List.map_map, Function.comp_def, applyEdit_id]

/-- Lookup commutes with an applied edit, which rewrites the found row. -/
theorem lookupMare_map_applyEdit (db : Db) (id : Nat) (name : String)
    (breed : Breed) (now : Nat) :
    lookupMare (db.map (applyEdit id name breed now)) id =
      Option.map (applyEdit id name breed now) (lookupMare db id) := by
  unfold lookupMare
  rw [List.find?_map]
  have hp : ((fun r : DatabaseRecord => r.id == id) ∘ applyEdit id name breed now) =
      fun r : DatabaseRecord => r.id == id := by
    funext s
    simp [Function.comp_def, applyEdit_id]
  rw [hp]

/-- A successful lookup returns a member row bearing the looked-up id. -/
theorem lookupMare_mem (db : Db) (id : Nat) (r : DatabaseRecord)
    (h : lookupMare db id = some r) : r ∈ db ∧ r.id = id := by
  refine ⟨List.mem_of_find?_eq_some h, ?_⟩
  have hbeq := List.find?_some h
  simpa using hbeq

/-- With no duplicate identifiers, lookup finds exactly the member row with
the looked-up id. -/
theorem lookupMare_of_mem (db : Db) (r : DatabaseRecord)
    (hnodup : (db.map (·.id)).Nodup) (hmem : r ∈ db) :
    lookupMare db r.id = some r := by
  induction db with
  | nil => cases hmem
  | cons a l ih =>
    rw [List.map_cons, List.nodup_cons] at hnodup
    rcases List.mem_cons.mp hmem with h | h
    · subst h
      simp [lookupMare, List.find?_cons_of_pos]
    · have hane : ¬(a.id == r.id) = true := by
        simp only [beq_iff_eq]
        intro he
        exact hnodup.1 (he ▸ List.mem_map_of_mem (·.id) h)
      unfold lookupMare
      have hcons : List.find? (fun s => s.id == r.id) (a :: l) =
          List.find? (fun s => s.id == r.id) l :=
        List.find?_cons_of_neg l hane
      rw [hcons]
      exact ih hnodup.2 h

/-- C1: `update` via the atomic `set_mare_record` has the three mutually
exclusive, exhaustive outcomes: no row with the id gives `RecordNotFound` and
changes nothing; a row whose `modified_at` equals the presented token gets the
new name, category and write timestamp and the call returns `Success`; a row
with a differing `modified_at` gives `ModifiedAtConflict` and changes
nothing. -/
theorem set_mare_record_outcomes (db : Db) (id : Nat) (name : String)
    (breed : Breed) (expected now : Nat) (hnodup : (db.map (·.id)).Nodup) :
    ((∀ r ∈ db, r.id ≠ id) →
      set_mare_record db id name breed expected now = (db, SetState.RecordNotFound)) ∧
    (∀ r ∈ db, r.id = id → r.modified_at = expected →
      (set_mare_record db id name breed expected now).2 = SetState.Success ∧
      lookupMare (set_mare_record db id name breed expected now).1 id =
        some { id := id, name := name, breed := breed, modified_at := now }) ∧
    (∀ r ∈ db, r.id = id → r.modified_at ≠ expected →
      set_mare_record db id name breed expected now = (db, SetState.ModifiedAtConflict)) := by
  refine ⟨?_, ?_, ?_⟩
  · intro h
    have hfind : db.find? (fun r => r.id == id) = none := by
      rw [List.find?_eq_none]
      intro x hx
      simpa using h x hx
    simp [set_mare_record, hfind]
  · intro r hmem hid hexp
    have hlook : lookupMare db id = some r := hid ▸ lookupMare_of_mem db r hnodup hmem
    have hfind : db.find? (fun s => s.id == id) = some r := hlook
    have hres : set_mare_record db id name breed expected now =
        (db.map (applyEdit id name breed now), SetState.Success) := by
      simp [set_mare_record, hfind, hexp]
    rw [hres]
    refine ⟨rfl, ?_⟩
    rw [lookupMare_map_applyEdit, hlook]
    have : applyEdit id name breed now r =
        { id := id, name := name, breed := breed, modified_at := now } := by
      cases r
      simp_all [applyEdit]
    simp [this]
  · intro r hmem hid hne
    have hlook : lookupMare db id = some r := hid ▸ lookupMare_of_mem db r hnodup hmem
    have hfind : db.find? (fun s => s.id == id) = some r := hlook
    simp [set_mare_record, hfind, hne]

/-- Witness for C1: the matching-token branch on a one-row table. -/
theorem set_mare_record_outcomes_witness :
    (set_mare_record [{ id := 1, name := "A", breed := Breed.Earth, modified_at := 10 }]
        1 "B" Breed.Pegasus 10 20).2 = SetState.Success ∧
    lookupMare (set_mare_record
        [{ id := 1, name := "A", breed := Breed.Earth, modified_at := 10 }]
        1 "B" Breed.Pegasus 10 20).1 1 =
      some { id := 1, name := "B", breed := Breed.Pegasus, modified_at := 20 } :=
  (set_mare_record_outcomes
      [{ id := 1, name := "A", breed := Breed.Earth, modified_at := 10 }]
      1 "B" Breed.Pegasus 10 20 (by simp)).2.1
    { id := 1, name := "A", breed := Breed.Earth, modified_at := 10 }
    (List.mem_singleton.mpr rfl) rfl rfl

/-- C2: two racing updates that both present the record's current
`modified_at` token resolve, in whichever order the atomic check-and-sets are
serialized, into exactly one `Success` and one `ModifiedAtConflict`; the loser
changes nothing and the stored row is exactly the winner's data, never a
merge. -/
theorem set_mare_record_no_lost_update (db : Db) (id : Nat) (r : DatabaseRecord)
    (n1 n2 : String) (b1 b2 : Breed) (m0 now1 now2 : Nat)
    (hnodup : (db.map (·.id)).Nodup) (hmem : r ∈ db) (hid : r.id = id)
    (hm0 : r.modified_at = m0) (hclock : now1 ≠ m0) :
    (set_mare_record db id n1 b1 m0 now1).2 = SetState.Success ∧
    (set_mare_record (set_mare_record db id n1 b1 m0 now1).1 id n2 b2 m0 now2).2 =
      SetState.ModifiedAtConflict ∧
    (set_mare_record (set_mare_record db id n1 b1 m0 now1).1 id n2 b2 m0 now2).1 =
      (set_mare_record db id n1 b1 m0 now1).1 ∧
    lookupMare (set_mare_record (set_mare_record db id n1 b1 m0 now1).1
        id n2 b2 m0 now2).1 id =
      some { id := id, name := n1, breed := b1, modified_at := now1 } := by
  have hlook : lookupMare db id = some r := hid ▸ lookupMare_of_mem db r hnodup hmem
  have hfind : db.find? (fun s => s.id == id) = some r := hlook
  have hres1 : set_mare_record db id n1 b1 m0 now1 =
      (db.map (applyEdit id n1 b1 now1), SetState.Success) := by
    simp [set_mare_record, hfind, hm0]
  have hr1 : applyEdit id n1 b1 now1 r =
      { id := id, name := n1, breed := b1, modified_at := now1 } := by
    cases r
    simp_all [applyEdit]
  have hlook1 : lookupMare (db.map (applyEdit id n1 b1 now1)) id =
      some { id := id, name := n1, breed := b1, modified_at := now1 } := by
    rw [lookupMare_map_applyEdit, hlook]
    simp [hr1]
  have hfind1 : (db.map (applyEdit id n1 b1 now1)).find? (fun s => s.id == id) =
      some { id := id, name := n1, breed := b1, modified_at := now1 } := hlook1
  have hres2 : set_mare_record (db.map (applyEdit id n1 b1 now1)) id n2 b2 m0 now2 =
      (db.map (applyEdit id n1 b1 now1), SetState.ModifiedAtConflict) := by
    simp [set_mare_record, hfind1, hclock]
  rw [hres1]
  simp only [hres2]
  exact ⟨trivial, trivial, trivial, hlook1⟩

/-- Witness for C2 on a one-row table. -/
theorem set_mare_record_no_lost_update_witness :
    (set_mare_record [{ id := 1, name := "A", breed := Breed.Earth, modified_at := 10 }]
        1 "B" Breed.Pegasus 10 20).2 = SetState.Success ∧
    (set_mare_record (set_mare_record
        [{ id := 1, name := "A", breed := Breed.Earth, modified_at := 10 }]
        1 "B" Breed.Pegasus 10 20).1 1 "C" Breed.Unicorn 10 30).2 =
      SetState.ModifiedAtConflict ∧
    (set_mare_record (set_mare_record
        [{ id := 1, name := "A", breed := Breed.Earth, modified_at := 10 }]
        1 "B" Breed.Pegasus 10 20).1 1 "C" Breed.Unicorn 10 30).1 =
      (set_mare_record [{ id := 1, name := "A", breed := Breed.Earth, modified_at := 10 }]
        1 "B" Breed.Pegasus 10 20).1 ∧
    lookupMare (set_mare_record (set_mare_record
        [{ id := 1, name := "A", breed := Breed.Earth, modified_at := 10 }]
        1 "B" Breed.Pegasus 10 20).1 1 "C" Breed.Unicorn 10 30).1 1 =
      some { id := 1, name := "B", breed := Breed.Pegasus, modified_at := 20 } :=
  set_mare_record_no_lost_update
    [{ id := 1, name := "A", breed := Breed.Earth, modified_at := 10 }]
    1 { id := 1, name := "A", breed := Breed.Earth, modified_at := 10 }
    "B" "C" Breed.Pegasus Breed.Unicorn 10 20 30
    (by simp) (List.mem_singleton.mpr rfl) rfl rfl (by simp)

/-- C3: a rejected update leaves the whole table, hence the targeted row,
byte-for-byte unchanged, and the row's `modified_at` changes exactly when the
write applies: on `Success` it moves from the presented token to the write
timestamp, which differs from the token. -/
theorem set_mare_record_frame (db : Db) (id : Nat) (name : String)
    (breed : Breed) (expected now : Nat) (hclock : now ≠ expected) :
    ((set_mare_record db id name breed expected now).2 ≠ SetState.Success →
      (set_mare_record db id name breed expected now).1 = db) ∧
    ((set_mare_record db id name breed expected now).2 = SetState.Success →
      Option.map (fun r => r.modified_at) (lookupMare db id) = some expected ∧
      Option.map (fun r => r.modified_at)
        (lookupMare (set_mare_record db id name breed expected now).1 id) = some now ∧
      Option.map (fun r => r.modified_at)
          (lookupMare (set_mare_record db id name breed expected now).1 id) ≠
        Option.map (fun r => r.modified_at) (lookupMare db id)) := by
  rcases hfind : db.find? (fun s => s.id == id) with _ | r
  · have hres : set_mare_record db id name breed expected now =
        (db, SetState.RecordNotFound) := by
      simp [set_mare_record, hfind]
    rw [hres]
    exact ⟨fun _ => rfl, fun h => by cases h⟩
  · have hlook : lookupMare db id = some r := hfind
    have hrid : r.id = id := (lookupMare_mem db id r hlook).2
    by_cases hexp : r.modified_at = expected
    · have hres : set_mare_record db id name breed expected now =
          (db.map (applyEdit id name breed now), SetState.Success) := by
        simp [set_mare_record, hfind, hexp]
      rw [hres]
      refine ⟨fun h => absurd rfl h, fun _ => ?_⟩
      have hr1 : applyEdit id name breed now r =
          { id := id, name := name, breed := breed, modified_at := now } := by
        cases r
        simp_all [applyEdit]
      have hlook1 : lookupMare (db.map (applyEdit id name breed now)) id =
          some { id := id, name := name, breed := breed, modified_at := now } := by
        rw [lookupMare_map_applyEdit, hlook]
        simp [hr1]
      refine ⟨by simp [hlook, hexp], by simp [hlook1], ?_⟩
      simp [hlook, hlook1, hexp, hclock]
    · have hres : set_mare_record db id name breed expected now =
          (db, SetState.ModifiedAtConflict) := by
        simp [set_mare_record, hfind, hexp]
      rw [hres]
      exact ⟨fun _ => rfl, fun h => by cases h⟩

/-- Witness for C3: the rejected (stale-token) branch on a one-row table
leaves the table unchanged. -/
theorem set_mare_record_frame_witness :
    (set_mare_record [{ id := 1, name := "A", breed := Breed.Earth, modified_at := 10 }]
        1 "B" Breed.Pegasus 99 20).1 =
      [{ id := 1, name := "A", breed := Breed.Earth, modified_at := 10 }] :=
  (set_mare_record_frame
      [{ id := 1, name := "A", breed := Breed.Earth, modified_at := 10 }]
      1 "B" Breed.Pegasus 99 20 (by simp)).1 (by decide)

/-- C4 counterexample: the handler accepts the empty name — `create("", Earth)`
does not fail with a validation error and does insert a record, refuting the
claim's non-emptiness check at this concrete input. -/
theorem post_mares_accepts_empty_name :
    post_mares [] 1 0 { name := "", breed := Breed.Earth } =
      ([{ id := 1, name := "", breed := Breed.Earth, modified_at := 0 }],
        PostMaresResult.redirect) := rfl

/-- C4 as amended: the handler rejects exactly the names whose byte length
(Rust `String::len`) exceeds 100, with a `BAD_REQUEST` validation error and no
inserted record; any other name — the empty name included — is accepted and a
record is inserted. -/
theorem post_mares_validation (db : Db) (freshId now : Nat) (form : AddPonyForm) :
    (form.name.utf8ByteSize > 100 →
      post_mares db freshId now form =
        (db, PostMaresResult.badRequest form.name.utf8ByteSize)) ∧
    (form.name.utf8ByteSize ≤ 100 →
      post_mares db freshId now form =
        (db ++
            [{ id := freshId
               name := form.name
               breed := form.breed
               modified_at := now }],
          PostMaresResult.redirect)) := by
  constructor
  · intro h
    simp [post_mares, h]
  · intro h
    simp [post_mares, Nat.not_lt.mpr h, Database.add]

/-- Witness for C4 as amended: a 101-character name is rejected with the
validation error and inserts nothing. -/
theorem post_mares_validation_witness :
    post_mares [] 1 0
        { name := String.mk (List.replicate 101 (Char.ofNat 97)), breed := Breed.Earth } =
      ([], PostMaresResult.badRequest 101) := by
  have h := (post_mares_validation [] 1 0
      { name := String.mk (List.replicate 101 (Char.ofNat 97)), breed := Breed.Earth }).1
    (by decide)
  rw [h]
  decide

/-- C5: the `Next` page — the `where id > $1 order by id asc limit 5` query of
`Database::get_paged_records` — holds at most 5 records, each with identifier
strictly greater than the cursor, in strictly ascending identifier order, and
is empty when the cursor is at or above every stored identifier. -/
theorem get_paged_records_next_spec (db : Db) (offset : Nat)
    (hnodup : (db.map (·.id)).Nodup) :
    (Database.get_paged_records db offset).length ≤ 5 ∧
    (∀ r ∈ Database.get_paged_records db offset, offset < r.id) ∧
    (Database.get_paged_records db offset).Pairwise (fun a b => a.id < b.id) ∧
    ((∀ r ∈ db, r.id ≤ offset) → Database.get_paged_records db offset = []) := by
  have htrans : ∀ a b c : DatabaseRecord, decide (a.id ≤ b.id) = true →
      decide (b.id ≤ c.id) = true → decide (a.id ≤ c.id) = true := by
    intro a b c h1 h2
    simp only [decide_eq_true_eq] at *
    omega
  have htotal : ∀ a b : DatabaseRecord,
      (decide (a.id ≤ b.id) || decide (b.id ≤ a.id)) = true := by
    intro a b
    rcases Nat.le_total a.id b.id with h | h <;> simp [h]
  have hpairne : db.Pairwise (fun a b => a.id ≠ b.id) :=
    List.pairwise_map.mp hnodup
  refine ⟨?_, ?_, ?_, ?_⟩
  · simp only [Database.get_paged_records, List.length_take]
    omega
  · intro r hr
    have h1 : r ∈ (db.filter (fun s => decide (offset < s.id))).mergeSort
        (fun a b => decide (a.id ≤ b.id)) := List.mem_of_mem_take hr
    have h2 : r ∈ db.filter (fun s => decide (offset < s.id)) :=
      (List.mergeSort_perm _ _).mem_iff.mp h1
    have h3 := (List.mem_filter.mp h2).2
    simpa using h3
  · have hsort := List.sorted_mergeSort htrans htotal
      (db.filter (fun s => decide (offset < s.id)))
    have hle : (Database.get_paged_records db offset).Pairwise
        (fun a b => a.id ≤ b.id) :=
      (List.Pairwise.sublist (List.take_sublist 5 _) hsort).imp
        (fun h => by simpa using h)
    have hne1 : (db.filter (fun s => decide (offset < s.id))).Pairwise
        (fun a b => a.id ≠ b.id) :=
      List.Pairwise.sublist (List.filter_sublist db) hpairne
    have hne2 : ((db.filter (fun s => decide (offset < s.id))).mergeSort
        (fun a b => decide (a.id ≤ b.id))).Pairwise (fun a b => a.id ≠ b.id) :=
      (List.Perm.pairwise_iff (fun h => Ne.symm h) (List.mergeSort_perm _ _)).mpr hne1
    have hne : (Database.get_paged_records db offset).Pairwise
        (fun a b => a.id ≠ b.id) :=
      List.Pairwise.sublist (List.take_sublist 5 _) hne2
    exact (hle.and hne).imp (fun h => lt_of_le_of_ne h.1 h.2)
  · intro h
    have hfil : db.filter (fun s => decide (offset < s.id)) = [] := by
      rw [List.filter_eq_nil_iff]
      intro a ha
      simpa using Nat.not_lt.mpr (h a ha)
    simp [Database.get_paged_records, hfil]

/-- Witness for C5: the empty page at the largest stored identifier. -/
theorem get_paged_records_next_spec_witness :
    Database.get_paged_records
      [{ id := 1, name := "A", breed := Breed.Earth, modified_at := 0 },
       { id := 2, name := "B", breed := Breed.Pegasus, modified_at := 0 }] 2 = [] :=
  (get_paged_records_next_spec
      [{ id := 1, name := "A", breed := Breed.Earth, modified_at := 0 },
       { id := 2, name := "B", breed := Breed.Pegasus, modified_at := 0 }]
      2 (by decide)).2.2.2 (by decide)

/-- C6: the `Previous` page holds at most 5 records, each with identifier
strictly less than the cursor, and is presented in strictly ascending
identifier order. -/
theorem get_paged_records_previous_spec (db : Db) (offset : Nat)
    (hnodup : (db.map (·.id)).Nodup) :
    (get_paged_records_previous db offset).length ≤ 5 ∧
    (∀ r ∈ get_paged_records_previous db offset, r.id < offset) ∧
    (get_paged_records_previous db offset).Pairwise (fun a b => a.id < b.id) := by
  have htrans : ∀ a b c : DatabaseRecord, decide (b.id ≤ a.id) = true →
      decide (c.id ≤ b.id) = true → decide (c.id ≤ a.id) = true := by
    intro a b c h1 h2
    simp only [decide_eq_true_eq] at *
    omega
  have htotal : ∀ a b : DatabaseRecord,
      (decide (b.id ≤ a.id) || decide (a.id ≤ b.id)) = true := by
    intro a b
    rcases Nat.le_total a.id b.id with h | h <;> simp [h]
  have hpairne : db.Pairwise (fun a b => a.id ≠ b.id) :=
    List.pairwise_map.mp hnodup
  refine ⟨?_, ?_, ?_⟩
  · simp only [get_paged_records_previous, List.length_reverse, List.length_take]
    omega
  · intro r hr
    have h0 : r ∈ ((db.filter (fun s => decide (s.id < offset))).mergeSort
        (fun a b => decide (b.id ≤ a.id))).take 5 := List.mem_reverse.mp hr
    have h1 : r ∈ (db.filter (fun s => decide (s.id < offset))).mergeSort
        (fun a b => decide (b.id ≤ a.id)) := List.mem_of_mem_take h0
    have h2 : r ∈ db.filter (fun s => decide (s.id < offset)) :=
      (List.mergeSort_perm _ _).mem_iff.mp h1
    have h3 := (List.mem_filter.mp h2).2
    simpa using h3
  · have hsort := List.sorted_mergeSort htrans htotal
      (db.filter (fun s => decide (s.id < offset)))
    have hge : (((db.filter (fun s => decide (s.id < offset))).mergeSort
        (fun a b => decide (b.id ≤ a.id))).take 5).Pairwise
        (fun a b => b.id ≤ a.id) :=
      (List.Pairwise.sublist (List.take_sublist 5 _) hsort).imp
        (fun h => by simpa using h)
    have hne1 : (db.filter (fun s => decide (s.id < offset))).Pairwise
        (fun a b => a.id ≠ b.id) :=
      List.Pairwise.sublist (List.filter_sublist db) hpairne
    have hne2 : ((db.filter (fun s => decide (s.id < offset))).mergeSort
        (fun a b => decide (b.id ≤ a.id))).Pairwise (fun a b => a.id ≠ b.id) :=
      (List.Perm.pairwise_iff (fun h => Ne.symm h) (List.mergeSort_perm _ _)).mpr hne1
    have hne : (((db.filter (fun s => decide (s.id < offset))).mergeSort
        (fun a b => decide (b.id ≤ a.id))).take 5).Pairwise
        (fun a b => a.id ≠ b.id) :=
      List.Pairwise.sublist (List.take_sublist 5 _) hne2
    rw [get_paged_records_previous, List.pairwise_reverse]
    exact (hge.and hne).imp (fun h => lt_of_le_of_ne h.1 (Ne.symm h.2))

/-- Witness for C6 on a one-row table. -/
theorem get_paged_records_previous_spec_witness :
    (get_paged_records_previous
      [{ id := 1, name := "A", breed := Breed.Earth, modified_at := 0 }] 3).length ≤ 5 :=
  (get_paged_records_previous_spec
      [{ id := 1, name := "A", breed := Breed.Earth, modified_at := 0 }] 3 (by decide)).1

/-- A successful draw from the monotonic source is strictly larger than the
previously issued ulid. -/
theorem ulidSourceGenerate_lt (prev : Nat) (t : UlidTick) (u : Nat)
    (h : ulidSourceGenerate prev t = some u) : prev < u := by
  unfold ulidSourceGenerate at h
  split_ifs at h with h1 h2
  · have hlt : prev < t.ts * 2 ^ 80 :=
      (Nat.div_lt_iff_lt_mul (by positivity)).mp h1
    cases h
    omega
  · cases h
    omega

/-- A successful pass of the retry loop is strictly larger than the previously
issued ulid. -/
theorem dbUlidGen_generate_lt (prev : Nat) (env : List UlidTick) (u : Nat)
    (h : DbUlidGen.generate prev env = some u) : prev < u := by
  induction env with
  | nil => simp [DbUlidGen.generate] at h
  | cons t rest ih =>
    rw [DbUlidGen.generate] at h
    rcases hs : ulidSourceGenerate prev t with _ | v
    · rw [hs] at h
      exact ih h
    · rw [hs] at h
      cases h
      exact ulidSourceGenerate_lt prev t _ hs

/-- Every identifier issued by a run of sequential calls is strictly larger
than the initial generator state. -/
theorem dbUlidGen_run_lt (prev : Nat) (envs : List (List UlidTick))
    (ids : List Nat) (h : DbUlidGen.run prev envs = some ids) :
    ∀ x ∈ ids, prev < x := by
  induction envs generalizing prev ids with
  | nil =>
    simp [DbUlidGen.run] at h
    subst h
    simp
  | cons env rest ih =>
    rw [DbUlidGen.run] at h
    rcases hg : DbUlidGen.generate prev env with _ | u
    · rw [hg] at h
      cases h
    · rw [hg] at h
      have h2 : Option.map (fun x => u :: x) (DbUlidGen.run u rest) = some ids := h
      rcases hr : DbUlidGen.run u rest with _ | tl
      · rw [hr] at h2
        cases h2
      · rw [hr] at h2
        cases h2
        intro x hx
        have hpu := dbUlidGen_generate_lt prev env u hg
        rcases List.mem_cons.mp hx with rfl | hx2
        · exact hpu
        · exact hpu.trans (ih u tl hr x hx2)

/-- C7: sequential calls to `DbUlidGen::generate` return pairwise distinct,
strictly increasing identifiers, and a call never surfaces an error: whenever
the observation stream of the retry loop reaches a tick newer than the
previously issued ulid, the loop returns a ulid. -/
theorem dbUlidGen_spec :
    (∀ prev envs ids, DbUlidGen.run prev envs = some ids →
      ids.Pairwise (· < ·) ∧ ids.Nodup) ∧
    (∀ prev env, (∃ t ∈ env, prev / 2 ^ 80 < t.ts) →
      (DbUlidGen.generate prev env).isSome = true) := by
  constructor
  · intro prev envs ids h
    suffices hpw : ids.Pairwise (· < ·) by
      exact ⟨hpw, hpw.imp (fun hlt => Nat.ne_of_lt hlt)⟩
    induction envs generalizing prev ids with
    | nil =>
      simp [DbUlidGen.run] at h
      subst h
      simp
    | cons env rest ih =>
      rw [DbUlidGen.run] at h
      rcases hg : DbUlidGen.generate prev env with _ | u
      · rw [hg] at h
        cases h
      · rw [hg] at h
        have h2 : Option.map (fun x => u :: x) (DbUlidGen.run u rest) = some ids := h
        rcases hr : DbUlidGen.run u rest with _ | tl
        · rw [hr] at h2
          cases h2
        · rw [hr] at h2
          cases h2
          exact List.Pairwise.cons (dbUlidGen_run_lt u rest tl hr) (ih u tl hr)
  · intro prev env hex
    induction env with
    | nil =>
      obtain ⟨t, ht, _⟩ := hex
      cases ht
    | cons t rest ih =>
      obtain ⟨w, hw, hts⟩ := hex
      rw [DbUlidGen.generate]
      rcases hs : ulidSourceGenerate prev t with _ | v
      · rcases List.mem_cons.mp hw with rfl | hw2
        · exfalso
          unfold ulidSourceGenerate at hs
          rw [if_pos hts] at hs
          cases hs
        · simpa using ih ⟨w, hw2, hts⟩
      · simp

/-- Witness for C7: two sequential calls, the first on a fresh tick, the
second within the same tick (served by the increment path). -/
theorem dbUlidGen_spec_witness :
    ([5 * 2 ^ 80 + 7, 5 * 2 ^ 80 + 8] : List Nat).Pairwise (· < ·) ∧
    (DbUlidGen.generate 0 [{ ts := 5, rand := 7 }]).isSome = true :=
  ⟨(dbUlidGen_spec.1 0 [[{ ts := 5, rand := 7 }], [{ ts := 3, rand := 0 }]]
      [5 * 2 ^ 80 + 7, 5 * 2 ^ 80 + 8] (by decide)).1,
   dbUlidGen_spec.2 0 [{ ts := 5, rand := 7 }]
     ⟨{ ts := 5, rand := 7 }, List.mem_singleton.mpr rfl, by decide⟩⟩

/-- C8: every category variant round-trips through its stored integer code,
under the fixed mapping `Earth = 0`, `Pegasus = 1`, `Unicorn = 2`. -/
theorem breed_code_roundtrip :
    (∀ b : Breed, Breed.fromI32? (Breed.toI32 b) = some b) ∧
    Breed.toI32 Breed.Earth = 0 ∧ Breed.toI32 Breed.Pegasus = 1 ∧
    Breed.toI32 Breed.Unicorn = 2 := by
  refine ⟨fun b => ?_, rfl, rfl, rfl⟩
  cases b <;> rfl

/-- C9: the integer-to-`Breed` and integer-to-`SetState` conversions are
defined exactly on the codes 0, 1 and 2: on those codes they return a value
(the panic branch is unreachable), on any other `i32` they hit the source's
`unreachable!`, modelled as `none`. -/
theorem fromI32_defined_only_on_codes (v : Int) :
    ((v = 0 ∨ v = 1 ∨ v = 2) →
      (Breed.fromI32? v).isSome = true ∧ (SetState.fromI32? v).isSome = true) ∧
    (¬(v = 0 ∨ v = 1 ∨ v = 2) →
      Breed.fromI32? v = none ∧ SetState.fromI32? v = none) := by
  unfold Breed.fromI32? SetState.fromI32?
  split_ifs <;> simp_all

/-- Witness for C9 at the concrete code 1. -/
theorem fromI32_defined_only_on_codes_witness :
    (Breed.fromI32? 1).isSome = true ∧ (SetState.fromI32? 1).isSome = true :=
  (fromI32_defined_only_on_codes 1).1 (Or.inr (Or.inl rfl))

/-- C10: for every record list, the head and the last element are both present
or both absent, so the mixed arms of the match in `get_paged_mare_table` — the
source's `unreachable!` — can never execute. -/
theorem firstLastIds_total (records : List DatabaseRecord) :
    (firstLastIds records).isSome = true := by
  cases records with
  | nil => rfl
  | cons x xs =>
    have h : (x :: xs).getLast?.isSome = true :=
      List.getLast?_isSome.mpr (by simp)
    obtain ⟨l, hl⟩ := Option.isSome_iff_exists.mp h
    simp [firstLastIds, hl]
